import Mathlib

/-!
Verification development for the `auto-away` IRC presence manager.

The repository consists of:
  * `asyncirc.py` — the IRC wire-protocol line parser (`IRC_PAT`, `parse_line`),
    the `Interrupt` wait/trigger primitive, and the `Client` class;
  * `auto-away.py` — the `Timer` value type, the `idle_away` backoff state
    machine, and the `Control` fan-out owner;
  * `timer.py` — `AbstractTimer`, whose constructor and query logic is the
    same as `auto-away.py`'s `Timer`.

This file gives a shallow embedding of those pieces and proves the frozen
claims about them.  Machine floats are modelled as extended rationals (`XQ`),
the monotonic clock as an explicit `now` argument, and Python's backtracking
regex engine as a CPS matcher over a regex AST (`RE`) that covers exactly the
constructs `IRC_PAT` uses.
-/

/-! ### Character classes of `IRC_PAT` (asyncirc.py lines 22-49)

Python's `\s`, `\w` and `\d` on `str` patterns also match some non-ASCII
codepoints; the embedding uses their ASCII fragment, which is exact for every
character that occurs in the claims and in the repository's own selftest. -/

def isWsC (c : Char) : Bool :=
  c == ' ' || c == '\t' || c == '\n' || c == '\r' || c == '\x0b' || c == '\x0c'

def isWordC (c : Char) : Bool :=
  (97 ≤ c.toNat && c.toNat ≤ 122) || (65 ≤ c.toNat && c.toNat ≤ 90) ||
  (48 ≤ c.toNat && c.toNat ≤ 57) || c == '_'

def isDigitC (c : Char) : Bool :=
  48 ≤ c.toNat && c.toNat ≤ 57

/-- Regex `.` (no DOTALL): any character except `'\n'`. -/
def isDotC (c : Char) : Bool := c != '\n'

/-- Character class `[^\r\n]`. -/
def isNotCRLF (c : Char) : Bool := c != '\r' && c != '\n'

/-- Character class `[^!@\s]` (the `nick` part of the source). -/
def isNickC (c : Char) : Bool := !(c == '!' || c == '@' || isWsC c)

/-- Character class `[^@\s]` (the `user` part of the source). -/
def isUserC (c : Char) : Bool := !(c == '@' || isWsC c)

/-- Character class `[^\s]` (the `host` part of the source). -/
def isHostC (c : Char) : Bool := !(isWsC c)

/-- Character class `[\r\n]` (the single-character line terminator). -/
def isCRLFC (c : Char) : Bool := c == '\r' || c == '\n'

/-! ### The capture groups of `IRC_PAT`

`IRC_PAT` has seven named groups, in source order:
`ts`, `nick`, `user`, `host`, `command`, `spargs`, `text`. -/

structure Caps where
  ts      : Option (List Char) := none
  nick    : Option (List Char) := none
  user    : Option (List Char) := none
  host    : Option (List Char) := none
  command : Option (List Char) := none
  spargs  : Option (List Char) := none
  text    : Option (List Char) := none
deriving DecidableEq

def Caps.empty : Caps := {}

def setCap : Nat → List Char → Caps → Caps
  | 0, v, g => { g with ts := some v }
  | 1, v, g => { g with nick := some v }
  | 2, v, g => { g with user := some v }
  | 3, v, g => { g with host := some v }
  | 4, v, g => { g with command := some v }
  | 5, v, g => { g with spargs := some v }
  | _, v, g => { g with text := some v }

/-! ### A backtracking regex engine

The AST covers exactly the constructs of `IRC_PAT`: single-character
classes, concatenation, alternation (leftmost first), greedy option,
greedy and lazy star of a character class, and capture groups.  The CPS
matcher reproduces Python `re`'s leftmost-backtracking search order:
greedy repetition prefers more, lazy repetition prefers fewer, `(?:x)?`
tries `x` first, `a|b` tries `a` first, and the captures returned are
those of the first complete match in that search order. -/

inductive RE where
  | eps    : RE
  | one    : (Char → Bool) → RE
  | seq    : RE → RE → RE
  | alt    : RE → RE → RE
  | opt    : RE → RE
  | starG  : (Char → Bool) → RE
  | starL  : (Char → Bool) → RE
  | grp    : Nat → RE → RE

/-- Continuations of the CPS matcher. -/
abbrev MK := List Char → Caps → Option Caps

/-- Greedy star over a character class: consume as many `p`-characters as
possible, backtracking one at a time into the continuation. -/
def greedyStar (p : Char → Bool) (k : MK) : List Char → Caps → Option Caps
  | [], caps => k [] caps
  | c :: rest, caps =>
    if p c then
      match greedyStar p k rest caps with
      | some r => some r
      | none => k (c :: rest) caps
    else k (c :: rest) caps

/-- Lazy star over a character class: try the continuation first, then
consume one `p`-character and repeat. -/
def lazyStar (p : Char → Bool) (k : MK) : List Char → Caps → Option Caps
  | [], caps =>
    match k [] caps with
    | some r => some r
    | none => none
  | c :: rest, caps =>
    match k (c :: rest) caps with
    | some r => some r
    | none => if p c then lazyStar p k rest caps else none

/-- The span of input consumed between entering a group at `s` and leaving
it at suffix `s'`. -/
def consumedBetween (s s' : List Char) : List Char :=
  s.take (s.length - s'.length)

/-- The CPS backtracking matcher.  `matchRE r s caps k` tries to match `r`
against a prefix of `s`, updating captures, and calls `k` on the rest. -/
def matchRE : RE → List Char → Caps → MK → Option Caps
  | .eps, s, caps, k => k s caps
  | .one p, s, caps, k =>
    match s with
    | [] => none
    | c :: rest => if p c then k rest caps else none
  | .seq a b, s, caps, k => matchRE a s caps (fun s' c' => matchRE b s' c' k)
  | .alt a b, s, caps, k =>
    match matchRE a s caps k with
    | some r => some r
    | none => matchRE b s caps k
  | .opt a, s, caps, k =>
    match matchRE a s caps k with
    | some r => some r
    | none => k s caps
  | .starG p, s, caps, k => greedyStar p k s caps
  | .starL p, s, caps, k => lazyStar p k s caps
  | .grp i a, s, caps, k =>
    matchRE a s caps (fun s' c' => k s' (setCap i (consumedBetween s s') c'))

/-- `x+` for a character class, as Python compiles it: one mandatory
character followed by a greedy star. -/
def rePlus (p : Char → Bool) : RE := .seq (.one p) (.starG p)

/-- A literal single character. -/
def reLit (c : Char) : RE := .one (· == c)

/-- A literal character sequence. -/
def reLits : List Char → RE
  | [] => .eps
  | c :: cs => .seq (reLit c) (reLits cs)

/-- Right-nested concatenation of a list of regexes. -/
def seqs : List RE → RE
  | [] => .eps
  | [r] => r
  | r :: rs => .seq r (seqs rs)

/-- The `@time=` timestamp body:
`\d\d\d\d-\d\d-\d\dT\d\d:\d\d:\d\d.\d\d\dZ` (the `.` is a regex dot). -/
def tsBody : RE :=
  seqs [.one isDigitC, .one isDigitC, .one isDigitC, .one isDigitC, reLit '-',
        .one isDigitC, .one isDigitC, reLit '-',
        .one isDigitC, .one isDigitC, reLit 'T',
        .one isDigitC, .one isDigitC, reLit ':',
        .one isDigitC, .one isDigitC, reLit ':',
        .one isDigitC, .one isDigitC, .one isDotC,
        .one isDigitC, .one isDigitC, .one isDigitC, reLit 'Z']

/-- `IRC_PAT` (asyncirc.py lines 22-49), group indices in source order:
0 = `ts`, 1 = `nick`, 2 = `user`, 3 = `host`, 4 = `command`, 5 = `spargs`,
6 = `text`. -/
def IRC_PAT : RE :=
  seqs [.starG isWsC,
        .opt (seqs [reLits ['@', 't', 'i', 'm', 'e', '='],
                    .grp 0 tsBody,
                    rePlus isWsC]),
        .opt (seqs [reLit ':',
                    .opt (.seq (.grp 1 (rePlus isNickC)) (reLit '!')),
                    .opt (.seq (.grp 2 (rePlus isUserC)) (reLit '@')),
                    .grp 3 (rePlus isHostC),
                    rePlus isWsC]),
        .starG isWsC,
        .grp 4 (rePlus isWordC),
        .starG isWsC,
        .grp 5 (.starL isDotC),
        .starG isWsC,
        .opt (.seq (reLit ':') (.grp 6 (.starG isNotCRLF))),
        .alt (.seq (reLit '\r') (reLit '\n')) (.one isCRLFC)]

/-- The accepting continuation: `re.match` only anchors at position 0 and
does not require the pattern to consume the whole input. -/
def acceptK : MK := fun _ caps => some caps

/-- `re.match(IRC_PAT, line)`: anchored at position 0, the pattern need not
consume the whole input; returns the captures of the first match in
backtracking order, or `none`. -/
def ircMatch (line : String) : Option Caps :=
  matchRE IRC_PAT line.data Caps.empty acceptK

/-! ### `parse_line` (asyncirc.py lines 96-121) -/

/-- The `Source` dataclass: `nick`, `user`, `host`, all optional. -/
structure Source where
  nick : Option String := none
  user : Option String := none
  host : Option String := none
deriving DecidableEq

/-- `Source.is_server` (asyncirc.py lines 102-104): `not self.nick` —
true when nick is absent or the empty string. -/
def Source.is_server (s : Source) : Bool :=
  match s.nick with
  | none => true
  | some n => n.isEmpty

/-- Python `str.lower` on the ASCII range (command characters are `\w`). -/
def pyLowerChar (c : Char) : Char :=
  if 65 ≤ c.toNat && c.toNat ≤ 90 then Char.ofNat (c.toNat + 32) else c

def pyLower (cs : List Char) : List Char := cs.map pyLowerChar

/-- Python `str.split()` with no separator: split on runs of whitespace,
dropping empty pieces.  `acc` holds the current token, reversed. -/
def pySplitAux : List Char → List Char → List String
  | acc, [] => if acc.isEmpty then [] else [String.mk acc.reverse]
  | acc, c :: rest =>
    if isWsC c then
      if acc.isEmpty then pySplitAux [] rest
      else String.mk acc.reverse :: pySplitAux [] rest
    else pySplitAux (c :: acc) rest

def pySplit (cs : List Char) : List String := pySplitAux [] cs

/-- `parse_line` (asyncirc.py lines 107-121): on a match, lower-case the
command, split `spargs` on whitespace, append the trailing `text` when it
participated (even when empty); on no match, return an empty `Source` and
the `parse_failed` sentinel.  The Lean function is total: the Python code
has no raise path, matching the claim that it never raises. -/
def parse_line (line : String) : Source × List String :=
  match ircMatch line with
  | none => ({ nick := none, user := none, host := none }, ["parse_failed", line])
  | some g =>
    let cmd := pyLower (g.command.getD [])
    let spargs := g.spargs.getD []
    let args := if spargs.isEmpty then [] else pySplit spargs
    let args :=
      match g.text with
      | some t => args ++ [String.mk t]
      | none => args
    ({ nick := g.nick.map String.mk,
       user := g.user.map String.mk,
       host := g.host.map String.mk },
     String.mk cmd :: args)

/-! ### `Interrupt` (asyncirc.py lines 124-153)

An `Interrupt` holds a list `_waiters` of futures.  A future is modelled by
an identifier and a `done` flag (`asyncio.Future.done()` — resolved or
cancelled).  `wait` creates a fresh pending future and appends it;
`trigger` walks the current list and calls `set_result` on every future
that is not yet done (the guard makes each resolution happen exactly once);
`asyncio.wait_for` returns normally iff the future was resolved before the
timeout (then `wait` returns `True`), and raises `TimeoutError` iff the
timeout elapsed with the future still pending (then `wait` returns
`False`). -/

structure Fut where
  id   : Nat
  done : Bool
deriving DecidableEq

/-- `Interrupt.trigger` (asyncirc.py lines 137-140): resolve every waiter
in the list that is not already done; already-done waiters are skipped. -/
def Interrupt.trigger (ws : List Fut) : List Fut :=
  ws.map fun f => if f.done then f else { f with done := true }

/-- The registration step of `Interrupt.wait` (asyncirc.py lines 143-144):
a fresh pending future is appended to `_waiters`. -/
def Interrupt.waitRegister (ws : List Fut) (i : Nat) : List Fut :=
  ws ++ [{ id := i, done := false }]

/-- The value `Interrupt.wait` returns when it wakes up (asyncirc.py lines
145-153): `True` iff its future was resolved (done) before the timeout,
`False` iff the timeout elapsed with the future still pending. -/
def Interrupt.waitReturn (f : Fut) : Bool := f.done

/-! ### Extended rationals: the value space of the monotonic clock

`auto-away.py` works with Python floats including `float('inf')` (the
never-expiring sentinel).  `XQ` models them as rationals extended with
`+∞`.  The operations below are defined on exactly the cases the program
exercises; cases the program never reaches (subtracting `∞` from a finite
value, multiplying `∞`) are given a harmless default and are marked. -/

inductive XQ where
  | fin (q : ℚ) : XQ
  | inf : XQ
deriving DecidableEq

def XQ.add : XQ → XQ → XQ
  | fin a, fin b => fin (a + b)
  | _, _ => inf

def XQ.sub : XQ → XQ → XQ
  | fin a, fin b => fin (a - b)
  | inf, fin _ => inf
  | _, inf => inf      -- unreachable in the program (would be -∞ / nan)

def XQ.mul : XQ → XQ → XQ
  | fin a, fin b => fin (a * b)
  | _, _ => inf        -- reached only with a positive finite factor

def XQ.half : XQ → XQ
  | fin a => fin (a / 2)
  | inf => inf

/-- Strict `<` on floats restricted to finite values and `+∞`. -/
def XQ.blt : XQ → XQ → Bool
  | fin a, fin b => decide (a < b)
  | fin _, inf => true
  | inf, _ => false

/-- Non-strict `<=` on floats restricted to finite values and `+∞`. -/
def XQ.ble : XQ → XQ → Bool
  | fin a, fin b => decide (a ≤ b)
  | fin _, inf => true
  | inf, inf => true
  | inf, fin _ => false

/-! ### `Timer` (auto-away.py lines 35-117; same logic in timer.py's
`AbstractTimer`, lines 52-147)

A `Timer` is a `started_at` instant and a `duration`.  The monotonic clock
(`time.monotonic`) is modelled by passing the current instant `now`
explicitly to every query that reads it. -/

structure Timer where
  started_at : XQ
  duration   : XQ
deriving DecidableEq

/-- The `Timer.__init__` keyword logic (auto-away.py lines 44-68 and
timer.py lines 60-84): raise `ValueError` when fewer than two of
`{elapsed, starts_in, started_at}` are `None` (i.e. when two or more are
supplied); otherwise start from `started_at` (defaulting to the clock),
subtract `elapsed`, add `starts_in`.  The dynamic `hasattr(duration,
'duration')` unwrapping cannot arise in this typed model, where `duration`
is always a number. -/
def Timer.init (now : XQ) (duration : XQ)
    (elapsed starts_in started_at : Option XQ) : Except String Timer :=
  if (if elapsed.isNone then 1 else 0) + (if starts_in.isNone then 1 else 0) +
       (if started_at.isNone then 1 else 0) < 2 then
    .error "specify one of elapsed, starts_in, started_at"
  else
    let sa := started_at.getD now
    let sa := match elapsed with
              | some e => sa.sub e
              | none => sa
    let sa := match starts_in with
              | some si => sa.add si
              | none => sa
    .ok { started_at := sa, duration := duration }

def Timer.expires (t : Timer) : XQ := t.started_at.add t.duration

/-- `is_running`: `started_at < clock() < expires`. -/
def Timer.is_running (t : Timer) (now : XQ) : Bool :=
  t.started_at.blt now && now.blt t.expires

/-- `is_started`: `started_at < clock()`. -/
def Timer.is_started (t : Timer) (now : XQ) : Bool :=
  t.started_at.blt now

/-- `is_expired`: `expires < clock()` (strict). -/
def Timer.is_expired (t : Timer) (now : XQ) : Bool :=
  t.expires.blt now

/-- `is_never`: `float('inf') <= expires`. -/
def Timer.is_never (t : Timer) : Bool :=
  XQ.ble .inf t.expires

def Timer.elapsed (t : Timer) (now : XQ) : XQ := now.sub t.started_at

def Timer.remaining (t : Timer) (now : XQ) : XQ :=
  t.duration.sub (t.elapsed now)

/-- `Timer(duration)` with no keyword argument: `started_at = clock()`. -/
def Timer.ofDuration (now : XQ) (duration : XQ) : Timer :=
  { started_at := now, duration := duration }

/-- `Timer.never()` (auto-away.py lines 110-112): `cls(float('inf'))`. -/
def Timer.never (now : XQ) : Timer := Timer.ofDuration now .inf

/-! ### `Client.set_away` (asyncirc.py lines 167-172)

`set_away` computes the wire command from `awayness`; when the tri-state
`is_away` differs from `awayness` it writes the command and blocks on the
client's private `away_changed` interrupt (then asserts the acknowledged
state matches); when `is_away` already equals `awayness` it does nothing. -/

inductive AwayAction where
  | noop : AwayAction
  | sendAndWait (cmd : String) : AwayAction
deriving DecidableEq

/-- The wire command: `AWAY :Auto-away\r\n` to set away, `AWAY\r\n` to
clear it. -/
def Client.awaycmd (awayness : Bool) : String :=
  if awayness then "AWAY :Auto-away\r\n" else "AWAY\r\n"

/-- The branch structure of `Client.set_away`: Python's `self.is_away !=
awayness` compares the tri-state `None`/`False`/`True` with a boolean, and
`None` is unequal to both booleans. -/
def Client.set_away (is_away : Option Bool) (awayness : Bool) : AwayAction :=
  if is_away ≠ some awayness then .sendAndWait (Client.awaycmd awayness)
  else .noop

/-! ### The `idle_away` state machine (auto-away.py lines 120-179)

One iteration of the loop is a pure step function of the current state,
the clock instant `now` at which the wait ended, and whether the wait was
interrupted.  All `Timer(...)` constructions inside one iteration are
modelled at that same instant.  The step also yields the `awayness` value
requested from the `Control` in that iteration. -/

structure IdleParams where
  idle_timeout     : ℚ
  backoff_factor   : ℚ
  backoff_max_exp  : ℤ
  backoff_deadzone : ℚ
  backoff_decay    : ℚ
deriving DecidableEq

/-- The module-level defaults (auto-away.py lines 23-32): 5-minute base
idle timeout, factor 2, `int(log2(3600/300)) = 3` maximum exponent,
deadzone 1.0, 24-hour decay. -/
def defaultParams : IdleParams :=
  { idle_timeout := 300, backoff_factor := 2, backoff_max_exp := 3,
    backoff_deadzone := 1, backoff_decay := 86400 }

structure IdleState where
  backoff_exp   : ℤ
  idle_timer    : Timer
  backoff_timer : Timer
  decay_timer   : Timer
deriving DecidableEq

/-- `make_idle_timer` (auto-away.py lines 127-128):
`Timer(idle_timeout * backoff_factor ** backoff_exp)`. -/
def make_idle_timer (p : IdleParams) (backoff_exp : ℤ) (now : ℚ) : Timer :=
  Timer.ofDuration (.fin now) (.fin (p.idle_timeout * p.backoff_factor ^ backoff_exp))

/-- `make_backoff_timer` (auto-away.py lines 130-133): a window of width
`idle_timer.duration * backoff_deadzone` centred on `idle_timer.expires`. -/
def make_backoff_timer (p : IdleParams) (idle_timer : Timer) : Timer :=
  let duration := idle_timer.duration.mul (.fin p.backoff_deadzone)
  { started_at := idle_timer.expires.sub duration.half, duration := duration }

/-- The initial state (auto-away.py lines 135-138). -/
def idle_init (p : IdleParams) (now : ℚ) : IdleState :=
  let idle := make_idle_timer p 0 now
  { backoff_exp := 0,
    idle_timer := idle,
    backoff_timer := make_backoff_timer p idle,
    decay_timer := Timer.ofDuration (.fin now) (.fin p.backoff_decay) }

/-- The wait timeout computed at the top of each iteration (auto-away.py
line 142): `idle_timer.remaining if not idle_timer.is_never else None`. -/
def waitTimeout (s : IdleState) (now : XQ) : Option XQ :=
  if s.idle_timer.is_never then none else some (s.idle_timer.remaining now)

/-- One iteration of the `idle_away` loop body (auto-away.py lines
154-179), from the point where `wait` returned.  Returns the next state
and the `awayness` requested via `control.set_away`, or the
`RuntimeError('logically impossible')` of the final branch. -/
def idle_step (p : IdleParams) (s : IdleState) (now : ℚ) (interrupted : Bool) :
    Except String (IdleState × Bool) :=
  if interrupted then
    let e1 := if s.backoff_timer.is_running (.fin now)
              then min (s.backoff_exp + 1) p.backoff_max_exp
              else s.backoff_exp
    let e2 := if s.decay_timer.is_expired (.fin now) then max (e1 - 1) 0 else e1
    let decay' := if s.decay_timer.is_expired (.fin now)
                  then Timer.ofDuration (.fin now) (.fin p.backoff_decay)
                  else s.decay_timer
    let idle' := make_idle_timer p e2 now
    .ok ({ backoff_exp := e2, idle_timer := idle',
           backoff_timer := make_backoff_timer p idle',
           decay_timer := decay' }, false)
  else if s.idle_timer.is_expired (.fin now) then
    .ok ({ s with idle_timer := Timer.never (.fin now) }, true)
  else
    .error "logically impossible"

/-- The states the controller can reach: the initial state at some
instant, closed under successful loop iterations. -/
inductive IdleReachable (p : IdleParams) : IdleState → Prop where
  | init (now : ℚ) : IdleReachable p (idle_init p now)
  | step (s : IdleState) (now : ℚ) (intr : Bool) (s' : IdleState) (away : Bool) :
      IdleReachable p s → idle_step p s now intr = .ok (s', away) →
      IdleReachable p s'

/-! ### Shared helper lemmas -/

theorem Interrupt.trigger_length (ws : List Fut) :
    (Interrupt.trigger ws).length = ws.length := by
  simp [Interrupt.trigger]

/-! ### Claim theorems -/

/-- C2: for every input line on which `IRC_PAT` does not match, `parse_line`
returns the pair of an empty `Source` (nick, user, host all absent) and the
sentinel message `["parse_failed", line]`.  `parse_line` is a total Lean
function, mirroring the fact that the Python code has no raise path: failure
is a normal return value. -/
theorem parse_line_failure (line : String) (h : ircMatch line = none) :
    parse_line line =
      ({ nick := none, user := none, host := none }, ["parse_failed", line]) := by
  simp [parse_line, h]

theorem parse_line_failure_witness :
    ircMatch "" = none ∧
    parse_line "" =
      ({ nick := none, user := none, host := none }, ["parse_failed", ""]) :=
  ⟨by decide, parse_line_failure "" (by decide)⟩

/-- C3: the three literal parses.  `":nick!user@host PRIVMSG #a :hi
there\r\n"` yields the full source and `["privmsg", "#a", "hi there"]`;
`"COMMAND arg\r\n"` yields an all-absent source and `["command", "arg"]`
with no trailing element (no colon in the line); `"COMMAND     :\r\n"`
yields `["command", ""]` — the empty trailing argument is present as an
empty string, distinct from absence. -/
theorem parse_line_literal_cases :
    parse_line ":nick!user@host PRIVMSG #a :hi there\r\n" =
      ({ nick := some "nick", user := some "user", host := some "host" },
       ["privmsg", "#a", "hi there"]) ∧
    parse_line "COMMAND arg\r\n" =
      ({ nick := none, user := none, host := none }, ["command", "arg"]) ∧
    parse_line "COMMAND     :\r\n" =
      ({ nick := none, user := none, host := none }, ["command", ""]) :=
  ⟨by decide, by decide, by decide⟩

/-- C4: `trigger` resolves, in one step, exactly the waiters pending at the
moment of the call: a pending waiter's future becomes done (its `wait`
returns interrupted = true), an already-done future is left untouched (it
is not resolved a second time), and a waiter that registers after the
trigger starts out pending — the earlier trigger does not latch; a waiter
whose timeout elapses while its future is still pending returns
interrupted = false. -/
theorem interrupt_trigger_edge_triggered (ws : List Fut) (i : Nat)
    (h : i < ws.length) (nid : Nat) :
    ((ws.get ⟨i, h⟩).done = false →
      (Interrupt.trigger ws).get ⟨i, (Interrupt.trigger_length ws).symm ▸ h⟩ =
        { id := (ws.get ⟨i, h⟩).id, done := true } ∧
      Interrupt.waitReturn
        ((Interrupt.trigger ws).get ⟨i, (Interrupt.trigger_length ws).symm ▸ h⟩) =
        true) ∧
    ((ws.get ⟨i, h⟩).done = true →
      (Interrupt.trigger ws).get ⟨i, (Interrupt.trigger_length ws).symm ▸ h⟩ =
        ws.get ⟨i, h⟩) ∧
    (Interrupt.waitRegister (Interrupt.trigger ws) nid).getLast? =
      some { id := nid, done := false } ∧
    (∀ f : Fut, f.done = false → Interrupt.waitReturn f = false) := by
  have hget : (Interrupt.trigger ws).get ⟨i, (Interrupt.trigger_length ws).symm ▸ h⟩ =
      if (ws.get ⟨i, h⟩).done then ws.get ⟨i, h⟩
      else { id := (ws.get ⟨i, h⟩).id, done := true } := by
    simp [Interrupt.trigger]
  refine ⟨fun hd => ?_, fun hd => ?_, ?_, fun f hf => ?_⟩
  · rw [hget, hd]
    exact ⟨by simp, rfl⟩
  · rw [hget, hd]
    simp
  · simp [Interrupt.waitRegister]
  · simp [Interrupt.waitReturn, hf]

theorem interrupt_trigger_edge_triggered_witness :
    (0 : Nat) < 2 ∧
    (Interrupt.trigger [⟨0, false⟩, ⟨1, true⟩]).get ⟨0, by decide⟩ =
      { id := 0, done := true } :=
  ⟨by decide,
   (((interrupt_trigger_edge_triggered [⟨0, false⟩, ⟨1, true⟩] 0 (by decide) 7).1)
      (by decide)).1⟩

/-- C5 counterexample: constructing a `Timer` with an explicit duration and
ZERO of the three optional arguments succeeds — `Timer(5.0)` is the
ordinary constructor call used throughout the program — whereas the claim
says supplying zero of them is a construction error. -/
theorem timer_init_zero_supplied_succeeds :
    Timer.init (.fin 0) (.fin 5) none none none =
      .ok { started_at := .fin 0, duration := .fin 5 } := rfl

/-- C5 amended: the constructor raises exactly when MORE than one of
`{elapsed, starts_in, started_at}` is supplied; it succeeds when zero or
exactly one of them is supplied. -/
theorem timer_init_error_iff (now duration : XQ)
    (elapsed starts_in started_at : Option XQ) :
    (Timer.init now duration elapsed starts_in started_at =
        .error "specify one of elapsed, starts_in, started_at") ↔
      2 ≤ (if elapsed.isSome then 1 else 0) + (if starts_in.isSome then 1 else 0) +
          (if started_at.isSome then 1 else 0) := by
  cases elapsed <;> cases starts_in <;> cases started_at <;> simp [Timer.init]

/-- C6 counterexample: a `Timer` of duration 0 is NOT expired at the very
instant of construction (clock unchanged): `is_expired` is the strict
comparison `expires < clock()`, and `started_at + 0 < started_at` is
false.  (The module-level `assert Timer(0).is_expired` passes only because
the monotonic clock advances between construction and query.) -/
theorem timer_zero_unexpired_at_construction :
    Timer.init (.fin 0) (.fin 0) none none none =
      .ok { started_at := .fin 0, duration := .fin 0 } ∧
    Timer.is_expired { started_at := .fin 0, duration := .fin 0 } (.fin 0) = false :=
  ⟨rfl, by norm_num [Timer.is_expired, Timer.expires, XQ.add, XQ.blt]⟩

/-- C6 amended: a `Timer` of duration 0 satisfies `is_expired` at every
instant strictly after construction, and `Timer.never().is_never` holds. -/
theorem timer_zero_expired_strictly_after (now later : ℚ) (h : now < later) :
    (Timer.ofDuration (.fin now) (.fin 0)).is_expired (.fin later) = true ∧
    (Timer.never (.fin now)).is_never = true := by
  constructor
  · simp [Timer.ofDuration, Timer.is_expired, Timer.expires, XQ.add, XQ.blt, h]
  · rfl

theorem timer_zero_expired_strictly_after_witness :
    (0 : ℚ) < 1 ∧
    ((Timer.ofDuration (.fin 0) (.fin 0)).is_expired (.fin 1) = true ∧
     (Timer.never (.fin 0)).is_never = true) :=
  ⟨by norm_num, timer_zero_expired_strictly_after 0 1 (by norm_num)⟩

/-- C8: in an iteration where the wait was not interrupted and the idle
timer has expired, the controller replaces `idle_timer` with the
never-expiring sentinel and requests `away = true` from the `Control`; the
wait timeout computed from the resulting state is `None` (wait
indefinitely), at every later instant. -/
theorem idle_step_expired_goes_away (p : IdleParams) (s : IdleState)
    (now nxt : ℚ) (h : s.idle_timer.is_expired (.fin now) = true) :
    idle_step p s now false =
      .ok ({ s with idle_timer := Timer.never (.fin now) }, true) ∧
    waitTimeout { s with idle_timer := Timer.never (.fin now) } (.fin nxt) = none := by
  constructor
  · simp [idle_step, h]
  · simp [waitTimeout, Timer.is_never, Timer.never, Timer.ofDuration,
          Timer.expires, XQ.add, XQ.ble]

def witTimer : Timer := Timer.ofDuration (.fin 0) (.fin 0)

def witState : IdleState :=
  { backoff_exp := 0, idle_timer := witTimer, backoff_timer := witTimer,
    decay_timer := witTimer }

theorem idle_step_expired_goes_away_witness :
    witState.idle_timer.is_expired (.fin 1) = true ∧
    (idle_step defaultParams witState 1 false =
       .ok ({ witState with idle_timer := Timer.never (.fin 1) }, true) ∧
     waitTimeout { witState with idle_timer := Timer.never (.fin 1) } (.fin 2) = none) :=
  have hx : witState.idle_timer.is_expired (.fin 1) = true := by
    norm_num [witState, witTimer, Timer.ofDuration, Timer.is_expired,
              Timer.expires, XQ.add, XQ.blt]
  ⟨hx, idle_step_expired_goes_away defaultParams witState 1 2 hx⟩

/-- C9: when `is_away` is the unknown tri-state value (`None`), `set_away`
is never a no-op — Python's `None != wanted` holds for both booleans, so
the corresponding AWAY wire command is written and the call blocks on the
away-ack interrupt; and the no-op branch is taken exactly when `is_away`
is a known boolean equal to `wanted`. -/
theorem set_away_unknown_never_noop :
    (∀ wanted : Bool,
      Client.set_away none wanted = .sendAndWait (Client.awaycmd wanted)) ∧
    (∀ (is_away : Option Bool) (wanted : Bool),
      Client.set_away is_away wanted = .noop ↔ is_away = some wanted) := by
  decide

/-- C7: in every reachable state of the idle controller, `backoff_exp`
stays within `[0, backoff_max_exp]` (for a non-negative configured
maximum), starting from 0; in an interrupted iteration it is incremented,
clamped to the maximum, exactly when the backoff timer is running, and
decremented, clamped to 0, exactly when the decay timer has expired (the
decay timer then being restarted); a non-interrupted iteration never
changes it. -/
theorem idle_backoff_exp_invariant (p : IdleParams)
    (hmax : 0 ≤ p.backoff_max_exp) :
    (∀ s, IdleReachable p s →
       0 ≤ s.backoff_exp ∧ s.backoff_exp ≤ p.backoff_max_exp) ∧
    (∀ s now s' away, idle_step p s now true = .ok (s', away) →
       s.backoff_timer.is_running (.fin now) = true →
       s.decay_timer.is_expired (.fin now) = false →
       s'.backoff_exp = min (s.backoff_exp + 1) p.backoff_max_exp ∧
       s'.decay_timer = s.decay_timer) ∧
    (∀ s now s' away, idle_step p s now true = .ok (s', away) →
       s.backoff_timer.is_running (.fin now) = false →
       s.decay_timer.is_expired (.fin now) = false →
       s'.backoff_exp = s.backoff_exp ∧ s'.decay_timer = s.decay_timer) ∧
    (∀ s now s' away, idle_step p s now true = .ok (s', away) →
       s.decay_timer.is_expired (.fin now) = true →
       s'.backoff_exp =
         max ((if s.backoff_timer.is_running (.fin now)
               then min (s.backoff_exp + 1) p.backoff_max_exp
               else s.backoff_exp) - 1) 0 ∧
       s'.decay_timer = Timer.ofDuration (.fin now) (.fin p.backoff_decay)) ∧
    (∀ s now s' away, idle_step p s now false = .ok (s', away) →
       s'.backoff_exp = s.backoff_exp) := by
  refine ⟨?_, ?_, ?_, ?_, ?_⟩
  · intro s hs
    induction hs with
    | init now =>
      refine ⟨le_refl 0, hmax⟩
    | step s now intr s' away hr hstep ih =>
      obtain ⟨ih0, ih1⟩ := ih
      cases intr with
      | false =>
        simp only [idle_step, Bool.false_eq_true, if_false] at hstep
        split at hstep
        · simp only [Except.ok.injEq, Prod.mk.injEq] at hstep
          obtain ⟨h1, -⟩ := hstep
          rw [← h1]
          exact ⟨ih0, ih1⟩
        · exact absurd hstep (by simp)
      | true =>
        simp only [idle_step, if_true] at hstep
        simp only [Except.ok.injEq, Prod.mk.injEq] at hstep
        obtain ⟨h1, -⟩ := hstep
        rw [← h1]
        dsimp only
        split <;> split <;> omega
  · intro s now s' away hstep hrun hdecay
    simp only [idle_step, if_true, hrun, hdecay, Bool.false_eq_true, if_false,
               Except.ok.injEq, Prod.mk.injEq] at hstep
    obtain ⟨h1, -⟩ := hstep
    rw [← h1]
    exact ⟨rfl, rfl⟩
  · intro s now s' away hstep hrun hdecay
    simp only [idle_step, if_true, hrun, hdecay, Bool.false_eq_true, if_false,
               Except.ok.injEq, Prod.mk.injEq] at hstep
    obtain ⟨h1, -⟩ := hstep
    rw [← h1]
    exact ⟨rfl, rfl⟩
  · intro s now s' away hstep hdecay
    simp only [idle_step, if_true, hdecay, Except.ok.injEq, Prod.mk.injEq] at hstep
    obtain ⟨h1, -⟩ := hstep
    rw [← h1]
    exact ⟨rfl, rfl⟩
  · intro s now s' away hstep
    simp only [idle_step, Bool.false_eq_true, if_false] at hstep
    split at hstep
    · simp only [Except.ok.injEq, Prod.mk.injEq] at hstep
      obtain ⟨h1, -⟩ := hstep
      rw [← h1]
    · exact absurd hstep (by simp)

theorem idle_backoff_exp_invariant_witness :
    0 ≤ defaultParams.backoff_max_exp ∧
    (0 ≤ (idle_init defaultParams 0).backoff_exp ∧
     (idle_init defaultParams 0).backoff_exp ≤ defaultParams.backoff_max_exp) :=
  ⟨by decide,
   (idle_backoff_exp_invariant defaultParams (by decide)).1 _
     (IdleReachable.init 0)⟩

/-! ### Symbolic evaluation lemmas for the regex engine (claim C10) -/

theorem consumedBetween_append (xs ys : List Char) :
    consumedBetween (xs ++ ys) ys = xs := by
  simp [consumedBetween, List.length_append, Nat.add_sub_cancel, List.take_left]

/-- A lazy star whose continuation fails on every proper suffix inside
`scan` skips over `scan` and yields the continuation's value at `M`. -/
theorem lazyStar_skip_to (p : Char → Bool) (k : MK) (caps : Caps)
    (scan M : List Char)
    (hscan : ∀ c ∈ scan, p c = true ∧ ∀ s caps', k (c :: s) caps' = none)
    (hM : (k M caps).isSome = true) :
    lazyStar p k (scan ++ M) caps = k M caps := by
  induction scan with
  | nil =>
    simp only [List.nil_append]
    cases hkm : k M caps with
    | none => rw [hkm] at hM; simp at hM
    | some r =>
      cases M with
      | nil => simp [lazyStar, hkm]
      | cons c rest => simp [lazyStar, hkm]
  | cons c scan ih =>
    have hc := hscan c (List.mem_cons_self c scan)
    simp only [List.cons_append, lazyStar, List.append_eq, hc.2, hc.1, if_true]
    exact ih (fun d hd => hscan d (List.mem_cons_of_mem c hd))

/-- A greedy star over a class that holds on all of `scan` and fails at the
head of `M` consumes exactly `scan` (its deeper attempts succeed at `M`). -/
theorem greedyStar_through (p : Char → Bool) (k : MK) (caps : Caps)
    (scan M : List Char)
    (hscan : ∀ c ∈ scan, p c = true)
    (hstop : ∀ d M', M = d :: M' → p d = false)
    (hM : (k M caps).isSome = true) :
    greedyStar p k (scan ++ M) caps = k M caps := by
  induction scan with
  | nil =>
    simp only [List.nil_append]
    cases M with
    | nil => simp [greedyStar]
    | cons d M' => simp [greedyStar, hstop d M' rfl]
  | cons c scan ih =>
    have hc := hscan c (List.mem_cons_self c scan)
    have ih' := ih (fun d hd => hscan d (List.mem_cons_of_mem c hd))
    simp only [List.cons_append, greedyStar, List.append_eq, hc, if_true, ih']
    cases hkm : k M caps with
    | none => rw [hkm] at hM; simp at hM
    | some r => rfl

/-- A greedy star stops immediately on an input whose head fails the
class. -/
theorem greedyStar_stop (p : Char → Bool) (k : MK) (caps : Caps)
    (s : List Char) (h : ∀ d s', s = d :: s' → p d = false) :
    greedyStar p k s caps = k s caps := by
  cases s with
  | nil => simp [greedyStar]
  | cons d s' => simp [greedyStar, h d s' rfl]

/-- A non-whitespace character differs from every whitespace character. -/
theorem not_ws_ne (c d : Char) (hws : isWsC c = false) (hd : isWsC d = true) :
    (c == d) = false := by
  cases hb : c == d with
  | false => rfl
  | true =>
    have hcd : c = d := by exact beq_iff_eq.mp hb
    subst hcd
    exact absurd hws (by simp [hd])

/-- Python `str.split()` on a whitespace-free token yields that token. -/
theorem pySplitAux_no_ws (pre acc : List Char)
    (hpre : ∀ c ∈ pre, isWsC c = false) :
    pySplitAux acc pre =
      if (acc.reverse ++ pre).isEmpty then []
      else [String.mk (acc.reverse ++ pre)] := by
  induction pre generalizing acc with
  | nil =>
    cases acc with
    | nil => simp [pySplitAux]
    | cons a as => simp [pySplitAux]
  | cons c rest ih =>
    have hc := hpre c (List.mem_cons_self c rest)
    rw [pySplitAux, if_neg (by simp [hc])]
    rw [ih (c :: acc) (fun d hd => hpre d (List.mem_cons_of_mem c hd))]
    simp

set_option maxHeartbeats 4000000 in
set_option maxRecDepth 4000 in
/-- On a line `COMMAND <pre>:<post>\r\n` whose `pre` part is free of
colons and whitespace and whose `post` part is free of CR/LF, `IRC_PAT`
matches with `command`, `spargs = pre` and `text = post`: the lazy
`spargs` star stops at the first colon, which starts the trailing text. -/
theorem ircMatch_cmd_colon (pre post : List Char)
    (hpre : pre ≠ [])
    (hpreC : ∀ c ∈ pre, (c == ':') = false ∧ isWsC c = false)
    (hpost : ∀ c ∈ post, isNotCRLF c = true) :
    ircMatch (String.mk
        ('C' :: 'O' :: 'M' :: 'M' :: 'A' :: 'N' :: 'D' :: ' ' ::
          (pre ++ ':' :: (post ++ ['\r', '\n'])))) =
      some (setCap 6 post (setCap 5 pre
        (setCap 4 ['C', 'O', 'M', 'M', 'A', 'N', 'D'] Caps.empty))) := by
  show matchRE IRC_PAT
      ('C' :: 'O' :: 'M' :: 'M' :: 'A' :: 'N' :: 'D' :: ' ' ::
        (pre ++ ':' :: (post ++ ['\r', '\n']))) Caps.empty acceptK = _
  simp +decide only [IRC_PAT, seqs, tsBody, reLits, reLit, rePlus, matchRE,
    greedyStar, lazyStar, if_true, if_false]
  rw [greedyStar_stop isWsC _ _ (pre ++ ':' :: (post ++ ['\r', '\n'])) ?h1]
  case h1 =>
    intro d s' h
    cases pre with
    | nil => exact absurd rfl hpre
    | cons a pre' =>
      rw [List.cons_append] at h
      injection h with h1 _
      rw [← h1]
      exact (hpreC a (List.mem_cons_self a pre')).2
  beta_reduce
  rw [lazyStar_skip_to isDotC _ _ pre (':' :: (post ++ ['\r', '\n'])) ?hscan ?hM]
  case hscan =>
    intro c hc
    have hcol := (hpreC c hc).1
    have hws := (hpreC c hc).2
    have hr : (c == '\r') = false := not_ws_ne c '\r' hws (by decide)
    have hn : (c == '\n') = false := not_ws_ne c '\n' hws (by decide)
    constructor
    · simp [isDotC, bne, hn]
    · intro s caps'
      simp +decide only [greedyStar, lazyStar, if_true, if_false, hws, hcol, hr, hn,
        isCRLFC, Bool.false_eq_true, Bool.or_self, Bool.or_false, Bool.false_or]
  case hM =>
    simp +decide only [greedyStar, if_true, if_false]
    rw [greedyStar_through isNotCRLF _ _ post ['\r', '\n'] hpost ?hstop ?hM2]
    case hstop =>
      intro d M' h
      cases h
      decide
    case hM2 =>
      simp [acceptK]
    simp [acceptK]
  simp +decide only [greedyStar, if_true, if_false]
  rw [greedyStar_through isNotCRLF _ _ post ['\r', '\n'] hpost ?hstop3 ?hM3]
  case hstop3 =>
    intro d M' h
    cases h
    decide
  case hM3 =>
    simp [acceptK]
  have hcb4 : consumedBetween
      ('C' :: 'O' :: 'M' :: 'M' :: 'A' :: 'N' :: 'D' :: ' ' ::
        (pre ++ ':' :: (post ++ ['\r', '\n'])))
      (' ' :: (pre ++ ':' :: (post ++ ['\r', '\n']))) =
      ['C', 'O', 'M', 'M', 'A', 'N', 'D'] := by
    rw [show ('C' :: 'O' :: 'M' :: 'M' :: 'A' :: 'N' :: 'D' :: ' ' ::
          (pre ++ ':' :: (post ++ ['\r', '\n']))) =
        ['C', 'O', 'M', 'M', 'A', 'N', 'D'] ++ (' ' ::
          (pre ++ ':' :: (post ++ ['\r', '\n']))) from rfl]
    exact consumedBetween_append _ _
  simp [acceptK, consumedBetween_append, hcb4]

/-- C10: the trailing-argument colon needs no preceding whitespace and may
sit in the middle of a token: on every line `COMMAND <pre>:<post>\r\n`
with `pre` colon- and whitespace-free and `post` CR/LF-free, `parse_line`
splits at the first colon, the text before it becoming a positional
argument and everything after it the trailing argument; in particular
`"COMMAND a:b\r\n"` parses to `["command", "a", "b"]` (the single token
`a:b` split in two) and `"COMMAND x y:z w\r\n"` to
`["command", "x", "y", "z w"]`. -/
theorem parse_line_splits_at_first_colon (pre post : List Char)
    (hpre : pre ≠ [])
    (hpreC : ∀ c ∈ pre, (c == ':') = false ∧ isWsC c = false)
    (hpost : ∀ c ∈ post, isNotCRLF c = true) :
    (parse_line (String.mk
        ('C' :: 'O' :: 'M' :: 'M' :: 'A' :: 'N' :: 'D' :: ' ' ::
          (pre ++ ':' :: (post ++ ['\r', '\n'])))) =
      ({ nick := none, user := none, host := none },
       ["command", String.mk pre, String.mk post])) ∧
    parse_line "COMMAND a:b\r\n" =
      ({ nick := none, user := none, host := none }, ["command", "a", "b"]) ∧
    parse_line "COMMAND x y:z w\r\n" =
      ({ nick := none, user := none, host := none },
       ["command", "x", "y", "z w"]) := by
  refine ⟨?_, by decide, by decide⟩
  have hmatch := ircMatch_cmd_colon pre post hpre hpreC hpost
  have hsplit : pySplit pre = [String.mk pre] := by
    rw [pySplit, pySplitAux_no_ws pre [] (fun c hc => (hpreC c hc).2)]
    cases pre with
    | nil => exact absurd rfl hpre
    | cons a pre' => simp
  have hcmd : String.mk (pyLower ['C', 'O', 'M', 'M', 'A', 'N', 'D']) =
      "command" := by decide
  have hne : pre.isEmpty = false := by
    cases pre with
    | nil => exact absurd rfl hpre
    | cons a pre' => rfl
  simp [parse_line, hmatch, setCap, Caps.empty, hne, hsplit, hcmd]

theorem parse_line_splits_at_first_colon_witness :
    ((['a'] : List Char) ≠ []) ∧
    parse_line (String.mk
        ('C' :: 'O' :: 'M' :: 'M' :: 'A' :: 'N' :: 'D' :: ' ' ::
          (['a'] ++ ':' :: (['b'] ++ ['\r', '\n'])))) =
      ({ nick := none, user := none, host := none },
       ["command", String.mk ['a'], String.mk ['b']]) :=
  ⟨by decide,
   (parse_line_splits_at_first_colon ['a'] ['b'] (by decide) (by decide)
      (by decide)).1⟩
